import Mathlib

/-!
Verification of the federated-learning notebook
`Federated_Learning_with_Differential_Privacy_CIFAR10.ipynb`.

The notebook delegates federated averaging, client training and the DP
optimizer to the tensorflow-federated and tensorflow-privacy libraries;
the repository itself contains the dataset partition, the model and
process construction and the evaluation helpers.  Those parts are embedded
from the source; the components the design document specifies but whose
implementation lives inside the external libraries (Aggregator,
PrivacyMechanism, RoundOrchestrator) are modelled from the specification
text and marked as such in their doc comments.
-/

/- ------------------------------------------------------------------
   Client dataset partition (source: the cell splitting the training
   set into num_clients slices, `start = i * len // num_clients`,
   `end = (i + 1) * len // num_clients`, slice `[start:end)`).
   ------------------------------------------------------------------ -/

/-- Start index of the slice of client `i` when `n` examples are split
among `m` clients: `i * n / m` with natural-number (floor) division,
exactly the Python expression `i * len(cifar10_train_images) // num_clients`. -/
def sliceStart (n m i : ℕ) : ℕ := i * n / m

/-- Index set of the examples given to client `i`: the contiguous range
from `i * n / m` (inclusive) to `(i + 1) * n / m` (exclusive), as produced
by the Python slice `cifar10_train_images[start:end]`. -/
def clientIndices (n m i : ℕ) : List ℕ :=
  List.range' (sliceStart n m i) (sliceStart n m (i + 1) - sliceStart n m i)

/-- The list of all client index slices, mirroring the notebook variable
`client_datasets` (one entry per client, clients `0, …, m-1`). -/
def client_datasets (n m : ℕ) : List (List ℕ) :=
  (List.range m).map (clientIndices n m)

theorem sliceStart_mono (n m : ℕ) : Monotone (sliceStart n m) :=
  monotone_nat_of_le_succ fun i =>
    Nat.div_le_div_right (Nat.mul_le_mul_right n (Nat.le_succ i))

theorem mem_clientIndices {n m i x : ℕ} :
    x ∈ clientIndices n m i ↔ sliceStart n m i ≤ x ∧ x < sliceStart n m (i + 1) := by
  have h := sliceStart_mono n m (Nat.le_succ i)
  simp [clientIndices, List.mem_range'_1]
  omega

theorem join_consecutive_range' (b : ℕ → ℕ) (mono : Monotone b) :
    ∀ m, ((List.range m).map fun i => List.range' (b i) (b (i + 1) - b i)).flatten
      = List.range' (b 0) (b m - b 0)
  | 0 => by simp
  | m + 1 => by
    have h0m : b 0 ≤ b m := mono (Nat.zero_le m)
    have hmm : b m ≤ b (m + 1) := mono (Nat.le_succ m)
    have e1 : b 0 + 1 * (b m - b 0) = b m := by omega
    have happ := List.range'_append (b 0) (b m - b 0) (b (m + 1) - b m) 1
    rw [e1] at happ
    have e2 : b (m + 1) - b m + (b m - b 0) = b (m + 1) - b 0 := by omega
    rw [e2] at happ
    rw [List.range_succ, List.map_append, List.flatten_append,
      join_consecutive_range' b mono m]
    simpa using happ

/-- Claim C10: the client-dataset construction partitions the `n` training
examples among `m` clients by contiguous ranges `[i*n/m, (i+1)*n/m)`:
the slices are pairwise disjoint, their concatenation is exactly the full
index range `0, …, n-1` (so every example is covered exactly once), and
when `n ≥ m` every client slice is non-empty. -/
theorem clientIndices_partition (n m : ℕ) (hm : 0 < m) :
    (∀ i j, i ≠ j → (clientIndices n m i).Disjoint (clientIndices n m j))
    ∧ (client_datasets n m).flatten = List.range n
    ∧ (m ≤ n → ∀ i < m, clientIndices n m i ≠ []) := by
  refine ⟨?_, ?_, ?_⟩
  · intro i j hij
    wlog hlt : i < j generalizing i j
    · exact (this j i hij.symm (by omega)).symm
    intro x hxi hxj
    rw [mem_clientIndices] at hxi hxj
    have : sliceStart n m (i + 1) ≤ sliceStart n m j := sliceStart_mono n m hlt
    omega
  · have hjoin := join_consecutive_range' (sliceStart n m) (sliceStart_mono n m) m
    have h0 : sliceStart n m 0 = 0 := by simp [sliceStart]
    have hmn : sliceStart n m m = n := by
      simp only [sliceStart]
      exact Nat.mul_div_cancel_left n hm
    rw [client_datasets]
    rw [show (List.range m).map (clientIndices n m)
        = (List.range m).map fun i => List.range' (sliceStart n m i)
            (sliceStart n m (i + 1) - sliceStart n m i) from rfl]
    rw [hjoin, h0, hmn, Nat.sub_zero, List.range_eq_range']
  · intro hmn i _
    have hlt : sliceStart n m i < sliceStart n m (i + 1) := by
      have h1 : i * n + m ≤ (i + 1) * n := by
        have := Nat.add_le_add_left hmn (i * n)
        calc i * n + m ≤ i * n + n := this
          _ = (i + 1) * n := by ring
      have h2 : (i * n + m) / m ≤ (i + 1) * n / m := Nat.div_le_div_right h1
      have h3 : (i * n + m) / m = i * n / m + 1 := by
        rw [Nat.add_div_right _ hm]
      simp only [sliceStart]
      omega
    simp only [clientIndices, ne_eq, List.range'_eq_nil]
    omega

theorem clientIndices_partition_witness :
    0 < 3 ∧
    ((∀ i j, i ≠ j → (clientIndices 7 3 i).Disjoint (clientIndices 7 3 j))
    ∧ (client_datasets 7 3).flatten = List.range 7
    ∧ (3 ≤ 7 → ∀ i < 3, clientIndices 7 3 i ≠ [])) :=
  ⟨by decide, clientIndices_partition 7 3 (by decide)⟩

/- ------------------------------------------------------------------
   Model and training-process construction (source cells defining
   create_keras_model, model_fn_standard, model_fn_with_dp and the two
   build_federated_averaging_process calls).
   ------------------------------------------------------------------ -/

/-- Keras layer descriptors appearing in `create_keras_model`. -/
inductive Layer
  | inputLayer (h w c : ℕ)
  | conv2d (filters kh kw : ℕ)
  | maxPooling2d (ph pw : ℕ)
  | flattenLayer
  | dense (units : ℕ)
  deriving DecidableEq

/-- Optimizer descriptors: plain Keras SGD, and the tensorflow-privacy
`DPAdamGaussianOptimizer` with its clipping and noise hyperparameters. -/
inductive Optimizer
  | sgd (learning_rate : ℚ)
  | dpAdamGaussian (l2_norm_clip noise_multiplier : ℚ)
      (num_microbatches : ℕ) (learning_rate : ℚ)
  deriving DecidableEq

inductive LossFn
  | sparseCategoricalCrossentropy (from_logits : Bool)
  deriving DecidableEq

inductive Metric
  | sparseCategoricalAccuracy
  deriving DecidableEq

/-- A Keras model: its architecture plus whatever was attached by
`keras_model.compile` (optimizer, loss, metrics). -/
structure KerasModel where
  layers : List Layer
  compiled_optimizer : Option Optimizer := none
  compiled_loss : Option LossFn := none
  compiled_metrics : List Metric := []
  deriving DecidableEq

/-- Source `create_keras_model`: the CNN architecture, not compiled. -/
def create_keras_model : KerasModel :=
  { layers := [.inputLayer 32 32 3, .conv2d 32 3 3, .maxPooling2d 2 2,
               .conv2d 64 3 3, .maxPooling2d 2 2, .flattenLayer,
               .dense 64, .dense 10] }

/-- Source `keras_model.compile(optimizer=…, loss=…, metrics=…)`. -/
def KerasModel.compile (m : KerasModel) (optimizer : Option Optimizer)
    (loss : LossFn) (metrics : List Metric) : KerasModel :=
  { m with compiled_optimizer := optimizer, compiled_loss := some loss,
           compiled_metrics := metrics }

/-- A TFF model wrapper as returned by `tff.learning.from_keras_model`:
it carries the architecture and the loss and metrics that were passed
explicitly to `from_keras_model`. -/
structure TffModel where
  layers : List Layer
  loss : LossFn
  metrics : List Metric
  deriving DecidableEq

/-- `tff.learning.from_keras_model(keras_model, input_spec, loss, metrics)`:
reads the architecture of the Keras model together with the explicitly
passed loss and metrics.  The optimizer compiled into the Keras model is
not among its arguments and is not consumed: client optimization in the
resulting federated process is driven solely by the
`client_optimizer_fn` argument of `build_federated_averaging_process`. -/
def from_keras_model (keras_model : KerasModel) (loss : LossFn)
    (metrics : List Metric) : TffModel :=
  ⟨keras_model.layers, loss, metrics⟩

/-- Source `model_fn_standard`. -/
def model_fn_standard : TffModel :=
  from_keras_model create_keras_model
    (.sparseCategoricalCrossentropy true) [.sparseCategoricalAccuracy]

/-- Source `model_fn_with_dp`: builds the Keras model, compiles it with
`tfp.DPAdamGaussianOptimizer(l2_norm_clip=1.0, noise_multiplier=0.5,
num_microbatches=1, learning_rate=0.001)`, then hands it to
`from_keras_model` exactly as the standard model function does. -/
def model_fn_with_dp : TffModel :=
  let keras_model := create_keras_model
  let optimizer := Optimizer.dpAdamGaussian 1 (1/2) 1 (1/1000)
  let compiled := keras_model.compile (some optimizer)
    (.sparseCategoricalCrossentropy true) [.sparseCategoricalAccuracy]
  from_keras_model compiled
    (.sparseCategoricalCrossentropy true) [.sparseCategoricalAccuracy]

/-- The data determining a federated averaging process as constructed by
`tff.learning.build_federated_averaging_process`: the model function
output and the client and server optimizers. -/
structure IterativeProcess where
  model_fn : TffModel
  client_optimizer : Optimizer
  server_optimizer : Optimizer
  deriving DecidableEq

def build_federated_averaging_process (model_fn : TffModel)
    (client_optimizer_fn server_optimizer_fn : Optimizer) : IterativeProcess :=
  ⟨model_fn, client_optimizer_fn, server_optimizer_fn⟩

/-- Source lines 1542-1546: the standard process. -/
def iterative_process_standard : IterativeProcess :=
  build_federated_averaging_process model_fn_standard
    (.sgd (2/100)) (.sgd 1)

/-- Source lines 1548-1552: the process used for the DP training run.
The source passes `model_fn_standard` (with the comment that the DP
optimizer "will be applied in the client update") and the same plain SGD
client and server optimizers as the standard process. -/
def iterative_process_with_dp : IterativeProcess :=
  build_federated_averaging_process model_fn_standard
    (.sgd (2/100)) (.sgd 1)

/-- Source lines 167-175 (first notebook phase): there the DP process is
built from `model_fn_with_dp`, again with the same SGD optimizers. -/
def iterative_process_with_dp_phase1 : IterativeProcess :=
  build_federated_averaging_process model_fn_with_dp
    (.sgd (2/100)) (.sgd 1)

/-- Claim C1 (refuted by the code): the claim requires the iterative
process used for DP training to differ from the standard one.  In the
source both processes are built from the same model function and the same
optimizers, so they are the same process; even in the first notebook
phase, where `model_fn_with_dp` is used, the compiled DP optimizer is
dropped by `from_keras_model` and the resulting process again equals the
standard one.  No clipping or noise is ever applied on the DP path. -/
theorem dp_process_equals_standard_process :
    iterative_process_with_dp = iterative_process_standard
    ∧ iterative_process_with_dp_phase1 = iterative_process_standard
    ∧ model_fn_with_dp = model_fn_standard :=
  ⟨rfl, rfl, rfl⟩

/- ------------------------------------------------------------------
   PrivacyMechanism.  The clipping and noising of DP-SGD live inside
   the tensorflow-privacy library (DPAdamGaussianOptimizer); the
   repository only constructs that optimizer.  The mechanism below is
   therefore modelled from the specification.
   ------------------------------------------------------------------ -/

/-- Modelled from the spec: PrivacyConfig with clip norm, noise
multiplier and microbatch count (the concrete implementation is inside
tensorflow-privacy and is not part of the repository source). -/
structure PrivacyConfig where
  clip_norm : ℝ
  noise_multiplier : ℝ
  num_microbatches : ℕ

/-- Modelled from the spec: the polymorphic privacy strategy, either
NoPrivacy or LocalDPGaussian with a configuration. -/
inductive PrivacyMechanism
  | noPrivacy
  | localDpGaussian (config : PrivacyConfig)

/-- Euclidean norm of a gradient vector. -/
noncomputable def l2norm {k : ℕ} (g : Fin k → ℝ) : ℝ :=
  Real.sqrt (∑ i, g i ^ 2)

/-- Modelled from the spec: scale the gradient by min(1, C / norm) so
its L2 norm never exceeds C. -/
noncomputable def clip {k : ℕ} (C : ℝ) (g : Fin k → ℝ) : Fin k → ℝ :=
  fun i => min 1 (C / l2norm g) * g i

/-- Modelled from the spec: process_step clips the raw microbatch
gradient and adds per-coordinate noise of standard deviation
noise_multiplier * clip_norm; the argument z is the standard Gaussian
sample drawn for this microbatch.  NoPrivacy is the identity. -/
noncomputable def process_step {k : ℕ} :
    PrivacyMechanism → (Fin k → ℝ) → (Fin k → ℝ) → Fin k → ℝ
  | .noPrivacy, _, g => g
  | .localDpGaussian cfg, z, g =>
      fun i => clip cfg.clip_norm g i + cfg.noise_multiplier * cfg.clip_norm * z i

theorem l2norm_nonneg {k : ℕ} (g : Fin k → ℝ) : 0 ≤ l2norm g :=
  Real.sqrt_nonneg _

theorem l2norm_smul {k : ℕ} (s : ℝ) (g : Fin k → ℝ) :
    l2norm (fun i => s * g i) = |s| * l2norm g := by
  simp only [l2norm, mul_pow, ← Finset.mul_sum]
  rw [Real.sqrt_mul (sq_nonneg s), Real.sqrt_sq_eq_abs]

theorem l2norm_eq_zero_imp {k : ℕ} {g : Fin k → ℝ} (h : l2norm g = 0) :
    ∀ i, g i = 0 := by
  intro i
  have hsum : (∑ j, g j ^ 2) = 0 := by
    have hnn : (0 : ℝ) ≤ ∑ j, g j ^ 2 := Finset.sum_nonneg fun j _ => sq_nonneg _
    have := Real.sqrt_eq_zero'.mp h
    linarith
  have := (Finset.sum_eq_zero_iff_of_nonneg
    (fun j _ => sq_nonneg (g j))).mp hsum i (Finset.mem_univ i)
  exact sq_eq_zero_iff.mp this

theorem l2norm_clip_le {k : ℕ} {C : ℝ} (hC : 0 < C) (g : Fin k → ℝ) :
    l2norm (clip C g) ≤ C := by
  have hs : l2norm (clip C g) = |min 1 (C / l2norm g)| * l2norm g :=
    l2norm_smul _ g
  rcases eq_or_lt_of_le (l2norm_nonneg g) with h0 | hpos
  · rw [hs, ← h0, mul_zero]
    exact le_of_lt hC
  · have hdivpos : 0 < C / l2norm g := div_pos hC hpos
    have hminnn : 0 ≤ min 1 (C / l2norm g) := le_min (by norm_num) (le_of_lt hdivpos)
    rw [hs, abs_of_nonneg hminnn]
    calc min 1 (C / l2norm g) * l2norm g
        ≤ C / l2norm g * l2norm g :=
          mul_le_mul_of_nonneg_right (min_le_right _ _) (le_of_lt hpos)
      _ = C := div_mul_cancel₀ C (ne_of_gt hpos)

theorem clip_of_norm_le {k : ℕ} {C : ℝ} {g : Fin k → ℝ}
    (h : l2norm g ≤ C) : clip C g = g := by
  funext i
  rcases eq_or_lt_of_le (l2norm_nonneg g) with h0 | hpos
  · have hz : g i = 0 := l2norm_eq_zero_imp h0.symm i
    simp [clip, hz]
  · have hone : 1 ≤ C / l2norm g := (one_le_div hpos).mpr h
    simp [clip, min_eq_left hone]

/-- Claim C4: for every LocalDPGaussian configuration with clip_norm
C > 0 and every input gradient (zero or arbitrarily large), the output
of process_step before noise addition is the clipped gradient, whose L2
norm is at most C, and the clipping scales the gradient by
min(1, C / norm). -/
theorem process_step_clip_bound {k : ℕ} (C σ : ℝ) (m : ℕ) (hC : 0 < C)
    (z g : Fin k → ℝ) :
    process_step (.localDpGaussian ⟨C, σ, m⟩) z g
      = (fun i => clip C g i + σ * C * z i)
    ∧ l2norm (clip C g) ≤ C
    ∧ clip C g = fun i => min 1 (C / l2norm g) * g i :=
  ⟨rfl, l2norm_clip_le hC g, rfl⟩

theorem process_step_clip_bound_witness :
    (0 : ℝ) < 1 ∧
    (process_step (.localDpGaussian ⟨1, 1/2, 1⟩) (fun _ => 0) ![(3 : ℝ), 4]
        = (fun i => clip 1 ![(3 : ℝ), 4] i + 1/2 * 1 * (fun _ : Fin 2 => (0 : ℝ)) i)
    ∧ l2norm (clip 1 ![(3 : ℝ), 4]) ≤ 1
    ∧ clip 1 ![(3 : ℝ), 4] = fun i => min 1 (1 / l2norm ![(3 : ℝ), 4]) * ![(3 : ℝ), 4] i) :=
  ⟨by norm_num,
   process_step_clip_bound 1 (1/2) 1 (by norm_num) (fun _ => 0) ![(3 : ℝ), 4]⟩

/-- Claim C5: with LocalDPGaussian and noise_multiplier zero,
process_step agrees with the NoPrivacy identity on every gradient whose
L2 norm is at most clip_norm, and for every gradient its output L2 norm
is at most clip_norm. -/
theorem process_step_zero_noise {k : ℕ} (C : ℝ) (m : ℕ) (hC : 0 < C)
    (z g : Fin k → ℝ) :
    (l2norm g ≤ C →
      process_step (.localDpGaussian ⟨C, 0, m⟩) z g = process_step .noPrivacy z g)
    ∧ l2norm (process_step (.localDpGaussian ⟨C, 0, m⟩) z g) ≤ C := by
  have hred : process_step (.localDpGaussian ⟨C, 0, m⟩) z g = clip C g := by
    funext i
    simp [process_step]
  constructor
  · intro hle
    rw [hred, clip_of_norm_le hle]
    rfl
  · rw [hred]
    exact l2norm_clip_le hC g

theorem process_step_zero_noise_witness :
    (0 : ℝ) < 1 ∧ l2norm ![(1 : ℝ), 0] ≤ 1 ∧
    process_step (.localDpGaussian ⟨1, 0, 1⟩) (fun _ => 37) ![(1 : ℝ), 0]
      = process_step .noPrivacy (fun _ => 37) ![(1 : ℝ), 0] := by
  have hnorm : l2norm ![(1 : ℝ), 0] ≤ 1 := by
    simp [l2norm, Fin.sum_univ_two]
  exact ⟨by norm_num, hnorm,
    (process_step_zero_noise 1 1 (by norm_num) (fun _ => 37) ![(1 : ℝ), 0]).1 hnorm⟩

/- ------------------------------------------------------------------
   Aggregator and round orchestration.  Federated averaging itself is
   executed inside tensorflow-federated
   (build_federated_averaging_process); the notebook only calls
   initialize and next in a loop.  The components below are modelled
   from the specification (sections 3, 4.3, 4.4, 4.6).
   ------------------------------------------------------------------ -/

/-- Modelled from the spec: a ClientUpdate carries the parameter delta
(shaped like the global parameters, expressed by the shared dimension k)
and the number of consumed examples. -/
structure ClientUpdate (k : ℕ) where
  delta : Fin k → ℝ
  num_examples : ℕ

/-- Modelled from the spec: the AggregatedUpdate produced by the
Aggregator within a round. -/
structure AggregatedUpdate (k : ℕ) where
  weighted_delta : Fin k → ℝ
  total_examples : ℕ

/-- Modelled from the spec: round-level aggregation failures.  In this
real-valued model every aggregate is finite, so only the
no-contribution failure ever arises. -/
inductive AggError
  | aggregationError
  | numericalError
  deriving DecidableEq

/-- Modelled from the spec: per-client failures. -/
inductive ClientError
  | emptyClientError
  deriving DecidableEq

/-- Modelled from the spec: Aggregator.combine computes the
example-weighted average of the deltas per tensor position and fails
with AggregationError when the input is empty or the total weight is
zero. -/
noncomputable def combine {k : ℕ} (updates : List (ClientUpdate k)) :
    Except AggError (AggregatedUpdate k) :=
  if (updates.map fun u => u.num_examples).sum = 0 then .error .aggregationError
  else .ok
    ⟨fun j => (updates.map fun u => (u.num_examples : ℝ) * u.delta j).sum
        / (((updates.map fun u => u.num_examples).sum : ℕ) : ℝ),
     (updates.map fun u => u.num_examples).sum⟩

/-- Modelled from the spec: the versioned global model snapshot. -/
structure ModelState (k : ℕ) where
  parameters : Fin k → ℝ
  round : ℕ

/-- Metrics record emitted at RoundComplete. -/
structure RoundMetrics where
  aborted : Bool
  accepted_clients : ℕ
  excluded_clients : ℕ
  deriving DecidableEq

/-- A local dataset, abstracted to the list of its microbatches; each
microbatch is represented by the raw-gradient function the external
local-optimizer primitive produces for it at given parameters. -/
def Dataset (k : ℕ) : Type := List ((Fin k → ℝ) → Fin k → ℝ)

/-- A participating client: its local dataset together with the
standard-Gaussian noise samples it draws (one per microbatch step);
the samples belong to the client, not to its position in the round. -/
structure Client (k : ℕ) where
  dataset : Dataset k
  noise : ℕ → Fin k → ℝ

/-- Modelled from the spec: the local optimization loop, one microbatch
at a time; every raw gradient is routed through process_step before the
local gradient-descent step consumes it. -/
noncomputable def localTrainAux {k : ℕ} (mech : PrivacyMechanism)
    (z : ℕ → Fin k → ℝ) (client_lr : ℝ) :
    (Fin k → ℝ) → Dataset k → ℕ → Fin k → ℝ
  | p, [], _ => p
  | p, gradFn :: rest, t =>
      localTrainAux mech z client_lr
        (fun j => p j - client_lr * process_step mech (z t) (gradFn p) j) rest (t + 1)

/-- Modelled from the spec: ClientComputation.run performs local
optimization from the broadcast parameters and returns the accumulated
delta and example count, or EmptyClientError on an empty dataset. -/
noncomputable def ClientComputation.run {k : ℕ} (mech : PrivacyMechanism)
    (client_lr : ℝ) (globalParams : Fin k → ℝ) (c : Client k) :
    Except ClientError (ClientUpdate k) :=
  if c.dataset.isEmpty then .error .emptyClientError
  else
    let finalParams := localTrainAux mech c.noise client_lr globalParams c.dataset 0
    .ok ⟨fun j => finalParams j - globalParams j, c.dataset.length⟩

/-- The updates accepted in a round: every dispatched client either
returns an update or signals EmptyClientError and is dropped. -/
noncomputable def acceptedUpdates {k : ℕ} (mech : PrivacyMechanism)
    (client_lr : ℝ) (params : Fin k → ℝ) (clients : List (Client k)) :
    List (ClientUpdate k) :=
  (clients.map (ClientComputation.run mech client_lr params)).filterMap Except.toOption

/-- Modelled from the spec: ServerOptimizer.update applies the
aggregated delta with the server learning rate and advances the round
counter by one. -/
def serverUpdate {k : ℕ} (st : ModelState k) (agg : AggregatedUpdate k)
    (server_lr : ℝ) : ModelState k :=
  ⟨fun j => st.parameters j + server_lr * agg.weighted_delta j, st.round + 1⟩

/-- Modelled from the spec: one orchestrated round — broadcast, client
computation, aggregation, server update.  On an aggregation failure the
round is aborted: the previous state stands and the failure is flagged
in the round metrics. -/
noncomputable def runRound {k : ℕ} (mech : PrivacyMechanism)
    (client_lr server_lr : ℝ) (st : ModelState k) (clients : List (Client k)) :
    ModelState k × RoundMetrics :=
  match combine (acceptedUpdates mech client_lr st.parameters clients) with
  | .error _ => (st,
      ⟨true, (acceptedUpdates mech client_lr st.parameters clients).length,
       clients.length - (acceptedUpdates mech client_lr st.parameters clients).length⟩)
  | .ok agg => (serverUpdate st agg server_lr,
      ⟨false, (acceptedUpdates mech client_lr st.parameters clients).length,
       clients.length - (acceptedUpdates mech client_lr st.parameters clients).length⟩)

/-- Modelled from the spec: a full run of n rounds, returning the
sequence of model states published at the end of each round. -/
noncomputable def runStates {k : ℕ} (mech : PrivacyMechanism)
    (client_lr server_lr : ℝ) :
    ModelState k → List (Client k) → ℕ → List (ModelState k)
  | _, _, 0 => []
  | st, clients, n + 1 =>
      let st2 := (runRound mech client_lr server_lr st clients).1
      st2 :: runStates mech client_lr server_lr st2 clients n

/-- Claim C2: for every sequence of client updates whose total example
count is strictly positive, Aggregator.combine returns the per-position
example-weighted average of the deltas, and the result is unchanged by
any permutation of the input sequence. -/
theorem combine_weighted_average {k : ℕ} (updates updates2 : List (ClientUpdate k))
    (hpos : 0 < (updates.map fun u => u.num_examples).sum)
    (hperm : updates.Perm updates2) :
    combine updates = .ok
      ⟨fun j => (updates.map fun u => (u.num_examples : ℝ) * u.delta j).sum
          / (((updates.map fun u => u.num_examples).sum : ℕ) : ℝ),
       (updates.map fun u => u.num_examples).sum⟩
    ∧ combine updates = combine updates2 := by
  have hne : (updates.map fun u => u.num_examples).sum ≠ 0 :=
    Nat.pos_iff_ne_zero.mp hpos
  have htot : (updates2.map fun u => u.num_examples).sum
      = (updates.map fun u => u.num_examples).sum :=
    ((hperm.map fun u => u.num_examples).sum_eq).symm
  have hj : ∀ j, (updates2.map fun u => (u.num_examples : ℝ) * u.delta j).sum
      = (updates.map fun u => (u.num_examples : ℝ) * u.delta j).sum :=
    fun j => ((hperm.map fun u => (u.num_examples : ℝ) * u.delta j).sum_eq).symm
  constructor
  · simp only [combine]
    rw [if_neg hne]
  · simp only [combine, htot]
    rw [if_neg hne, if_neg hne]
    simp only [Except.ok.injEq, AggregatedUpdate.mk.injEq]
    exact ⟨funext fun j => by rw [hj j], trivial⟩

/-- The end-to-end aggregation example of the specification: three
clients with deltas (1,1), (2,2), (3,3) and weights 10, 20, 30. -/
def c2updates : List (ClientUpdate 2) :=
  [⟨![1, 1], 10⟩, ⟨![2, 2], 20⟩, ⟨![3, 3], 30⟩]

theorem combine_weighted_average_witness :
    0 < (c2updates.map fun u => u.num_examples).sum
    ∧ c2updates.Perm c2updates.reverse
    ∧ (combine c2updates = .ok
        ⟨fun j => (c2updates.map fun u => (u.num_examples : ℝ) * u.delta j).sum
            / (((c2updates.map fun u => u.num_examples).sum : ℕ) : ℝ),
         (c2updates.map fun u => u.num_examples).sum⟩
      ∧ combine c2updates = combine c2updates.reverse) := by
  have hpos : 0 < (c2updates.map fun u => u.num_examples).sum := by
    simp [c2updates]
  exact ⟨hpos, (List.reverse_perm c2updates).symm,
    combine_weighted_average c2updates c2updates.reverse hpos
      (List.reverse_perm c2updates).symm⟩

theorem runRound_round_le {k : ℕ} (mech : PrivacyMechanism)
    (client_lr server_lr : ℝ) (st : ModelState k) (clients : List (Client k)) :
    st.round ≤ (runRound mech client_lr server_lr st clients).1.round := by
  rcases hc : combine (acceptedUpdates mech client_lr st.parameters clients) with e | agg
  · simp [runRound, hc]
  · simp [runRound, hc, serverUpdate]

theorem runStates_chain {k : ℕ} (mech : PrivacyMechanism)
    (client_lr server_lr : ℝ) :
    ∀ (n : ℕ) (st : ModelState k) (clients : List (Client k)),
      List.Chain' (fun a b => a.round ≤ b.round)
        (st :: runStates mech client_lr server_lr st clients n)
  | 0, st, clients => by simp [runStates]
  | n + 1, st, clients => by
    rw [runStates, List.chain'_cons]
    exact ⟨runRound_round_le mech client_lr server_lr st clients,
      runStates_chain mech client_lr server_lr n _ clients⟩

/-- Claim C3: the round counter advances by exactly one at the end of a
non-aborted round, is left unchanged (together with the whole state) by
an aborted round, and never decreases along the sequence of states of
a run. -/
theorem round_counter_invariant {k : ℕ} (mech : PrivacyMechanism)
    (client_lr server_lr : ℝ) (st : ModelState k) (clients : List (Client k)) :
    ((runRound mech client_lr server_lr st clients).2.aborted = false →
      (runRound mech client_lr server_lr st clients).1.round = st.round + 1)
    ∧ ((runRound mech client_lr server_lr st clients).2.aborted = true →
      (runRound mech client_lr server_lr st clients).1 = st)
    ∧ ∀ n, List.Chain' (fun a b => a.round ≤ b.round)
        (st :: runStates mech client_lr server_lr st clients n) := by
  refine ⟨?_, ?_, fun n => runStates_chain mech client_lr server_lr n st clients⟩
  · intro h
    rcases hc : combine (acceptedUpdates mech client_lr st.parameters clients) with e | agg
    · simp [runRound, hc] at h
    · simp [runRound, hc, serverUpdate]
  · intro h
    rcases hc : combine (acceptedUpdates mech client_lr st.parameters clients) with e | agg
    · simp [runRound, hc]
    · simp [runRound, hc] at h

/-- The empty parameter vector used in concrete witnesses. -/
def p0 : Fin 0 → ℝ := fun i => i.elim0

/-- A client with one microbatch whose raw gradient is the identity. -/
def goodClient : Client 0 := ⟨[fun p => p], fun _ => p0⟩

/-- A client holding no examples. -/
def emptyClient : Client 0 := ⟨[], fun _ => p0⟩

theorem round_counter_invariant_witness :
    ((runRound .noPrivacy 1 1 ⟨p0, 0⟩ [goodClient]).2.aborted = false
      ∧ (runRound .noPrivacy 1 1 ⟨p0, 0⟩ [goodClient]).1.round = 0 + 1)
    ∧ ((runRound .noPrivacy 1 1 ⟨p0, 5⟩ ([] : List (Client 0))).2.aborted = true
      ∧ (runRound .noPrivacy 1 1 ⟨p0, 5⟩ ([] : List (Client 0))).1 = ⟨p0, 5⟩) := by
  have h1 : (runRound .noPrivacy 1 1 (⟨p0, 0⟩ : ModelState 0) [goodClient]).2.aborted
      = false := by
    simp [runRound, acceptedUpdates, ClientComputation.run, goodClient, combine,
      List.filterMap_cons, Except.toOption]
  have h2 : (runRound .noPrivacy 1 1 (⟨p0, 5⟩ : ModelState 0)
      ([] : List (Client 0))).2.aborted = true := by
    simp [runRound, acceptedUpdates, combine]
  exact ⟨⟨h1, (round_counter_invariant .noPrivacy 1 1 ⟨p0, 0⟩ [goodClient]).1 h1⟩,
    ⟨h2, (round_counter_invariant .noPrivacy 1 1 ⟨p0, 5⟩ []).2.1 h2⟩⟩

theorem acceptedUpdates_length_le {k : ℕ} (mech : PrivacyMechanism)
    (client_lr : ℝ) (params : Fin k → ℝ) (clients : List (Client k)) :
    (acceptedUpdates mech client_lr params clients).length ≤ clients.length := by
  calc (acceptedUpdates mech client_lr params clients).length
      ≤ (clients.map (ClientComputation.run mech client_lr params)).length :=
        List.length_filterMap_le _ _
    _ = clients.length := List.length_map _ _

/-- Claim C6: a client whose local dataset has no examples fails with
EmptyClientError, its result is dropped from the accepted updates of the
round, the resulting model state is exactly the one obtained without
that client (the failure is non-fatal for the round and the run), and
the client is counted as excluded in the round metrics. -/
theorem empty_client_nonfatal {k : ℕ} (mech : PrivacyMechanism)
    (client_lr server_lr : ℝ) (st : ModelState k) (z : ℕ → Fin k → ℝ)
    (cs₁ cs₂ : List (Client k)) :
    ClientComputation.run mech client_lr st.parameters ⟨[], z⟩ = .error .emptyClientError
    ∧ acceptedUpdates mech client_lr st.parameters (cs₁ ++ ⟨[], z⟩ :: cs₂)
        = acceptedUpdates mech client_lr st.parameters (cs₁ ++ cs₂)
    ∧ (runRound mech client_lr server_lr st (cs₁ ++ ⟨[], z⟩ :: cs₂)).1
        = (runRound mech client_lr server_lr st (cs₁ ++ cs₂)).1
    ∧ (runRound mech client_lr server_lr st (cs₁ ++ ⟨[], z⟩ :: cs₂)).2.excluded_clients
        = (runRound mech client_lr server_lr st (cs₁ ++ cs₂)).2.excluded_clients + 1 := by
  have h1 : ClientComputation.run mech client_lr st.parameters ⟨[], z⟩
      = .error .emptyClientError := by
    simp [ClientComputation.run]
  have h2 : acceptedUpdates mech client_lr st.parameters (cs₁ ++ ⟨[], z⟩ :: cs₂)
      = acceptedUpdates mech client_lr st.parameters (cs₁ ++ cs₂) := by
    simp [acceptedUpdates, List.filterMap_append, List.filterMap_cons, h1,
      Except.toOption]
  have hlen := acceptedUpdates_length_le mech client_lr st.parameters (cs₁ ++ cs₂)
  refine ⟨h1, h2, ?_, ?_⟩
  · rcases hc : combine (acceptedUpdates mech client_lr st.parameters (cs₁ ++ cs₂))
      with e | agg <;> simp [runRound, h2, hc]
  · rcases hc : combine (acceptedUpdates mech client_lr st.parameters (cs₁ ++ cs₂))
      with e | agg <;>
    · simp only [runRound, h2, hc, List.length_append, List.length_cons]
      simp only [List.length_append] at hlen
      omega

/-- Claim C7: Aggregator.combine fails with AggregationError on the
empty sequence and on any sequence of updates all of whose example
counts are zero; whenever aggregation fails, the round is aborted and
the model state is exactly the state from before the round. -/
theorem combine_failure_aborts {k : ℕ} :
    combine ([] : List (ClientUpdate k)) = .error .aggregationError
    ∧ (∀ updates : List (ClientUpdate k),
        (∀ u ∈ updates, u.num_examples = 0) →
        combine updates = .error .aggregationError)
    ∧ ∀ (mech : PrivacyMechanism) (client_lr server_lr : ℝ) (st : ModelState k)
        (clients : List (Client k)) (e : AggError),
        combine (acceptedUpdates mech client_lr st.parameters clients) = .error e →
        (runRound mech client_lr server_lr st clients).1 = st
        ∧ (runRound mech client_lr server_lr st clients).2.aborted = true := by
  refine ⟨by simp [combine], ?_, ?_⟩
  · intro updates h
    have hz : (updates.map fun u => u.num_examples).sum = 0 := by
      refine List.sum_eq_zero ?_
      intro x hx
      rcases List.mem_map.mp hx with ⟨u, hu, rfl⟩
      exact h u hu
    simp [combine, hz]
  · intro mech client_lr server_lr st clients e hc
    constructor <;> simp [runRound, hc]

theorem combine_failure_aborts_witness :
    (∀ u ∈ ([⟨p0, 0⟩] : List (ClientUpdate 0)), u.num_examples = 0)
    ∧ combine ([⟨p0, 0⟩] : List (ClientUpdate 0)) = .error .aggregationError
    ∧ combine (acceptedUpdates .noPrivacy 1
        (⟨p0, 3⟩ : ModelState 0).parameters [emptyClient]) = .error .aggregationError
    ∧ (runRound .noPrivacy 1 1 ⟨p0, 3⟩ [emptyClient]).1 = ⟨p0, 3⟩
    ∧ (runRound .noPrivacy 1 1 ⟨p0, 3⟩ [emptyClient]).2.aborted = true := by
  have hz : ∀ u ∈ ([⟨p0, 0⟩] : List (ClientUpdate 0)), u.num_examples = 0 := by
    simp
  have hacc : combine (acceptedUpdates .noPrivacy 1
      (⟨p0, 3⟩ : ModelState 0).parameters [emptyClient]) = .error .aggregationError := by
    simp [acceptedUpdates, ClientComputation.run, emptyClient, combine,
      List.filterMap_cons, Except.toOption]
  have habort := (@combine_failure_aborts 0).2.2 .noPrivacy 1 1 ⟨p0, 3⟩
    [emptyClient] .aggregationError hacc
  exact ⟨hz, (@combine_failure_aborts 0).2.1 [⟨p0, 0⟩] hz, hacc,
    habort.1, habort.2⟩

theorem localTrainAux_noPrivacy_noise {k : ℕ} (z₁ z₂ : ℕ → Fin k → ℝ)
    (client_lr : ℝ) :
    ∀ (ds : Dataset k) (p : Fin k → ℝ) (t₁ t₂ : ℕ),
      localTrainAux .noPrivacy z₁ client_lr p ds t₁
        = localTrainAux .noPrivacy z₂ client_lr p ds t₂
  | [], _, _, _ => rfl
  | gradFn :: rest, p, t₁, t₂ => by
    simp only [localTrainAux, process_step]
    exact localTrainAux_noPrivacy_noise z₁ z₂ client_lr rest _ _ _

theorem run_noPrivacy_noise {k : ℕ} (client_lr : ℝ) (params : Fin k → ℝ)
    (c₁ c₂ : Client k) (h : c₁.dataset = c₂.dataset) :
    ClientComputation.run .noPrivacy client_lr params c₁
      = ClientComputation.run .noPrivacy client_lr params c₂ := by
  have haux := localTrainAux_noPrivacy_noise c₁.noise c₂.noise client_lr
    c₂.dataset params 0 0
  simp only [ClientComputation.run, h, haux]

theorem clientResults_noPrivacy_noise {k : ℕ} (client_lr : ℝ) (params : Fin k → ℝ) :
    ∀ (cs₁ cs₂ : List (Client k)),
      cs₁.map Client.dataset = cs₂.map Client.dataset →
      cs₁.map (ClientComputation.run .noPrivacy client_lr params)
        = cs₂.map (ClientComputation.run .noPrivacy client_lr params)
  | [], [], _ => rfl
  | [], _ :: _, h => by simp at h
  | _ :: _, [], h => by simp at h
  | c₁ :: cs₁, c₂ :: cs₂, h => by
    simp only [List.map_cons, List.cons.injEq] at h
    simp only [List.map_cons]
    rw [run_noPrivacy_noise client_lr params c₁ c₂ h.1,
      clientResults_noPrivacy_noise client_lr params cs₁ cs₂ h.2]

theorem runRound_noPrivacy_noise {k : ℕ} (client_lr server_lr : ℝ)
    (st : ModelState k) (cs₁ cs₂ : List (Client k))
    (h : cs₁.map Client.dataset = cs₂.map Client.dataset) :
    runRound .noPrivacy client_lr server_lr st cs₁
      = runRound .noPrivacy client_lr server_lr st cs₂ := by
  have hmap := clientResults_noPrivacy_noise client_lr st.parameters cs₁ cs₂ h
  have hlen : cs₁.length = cs₂.length := by
    have := congrArg List.length h
    simpa using this
  simp only [runRound, acceptedUpdates, hmap, hlen]

/-- Claim C8: with NoPrivacy, the state sequence of a run is a function
of the initial state, the client datasets and the deterministic local
training alone: any two client lists carrying the same datasets (and in
particular arbitrary, different random noise sources) produce the
identical sequence of model states, round by round. -/
theorem noPrivacy_run_deterministic {k : ℕ} (client_lr server_lr : ℝ)
    (cs₁ cs₂ : List (Client k))
    (h : cs₁.map Client.dataset = cs₂.map Client.dataset) :
    ∀ (n : ℕ) (st : ModelState k),
      runStates .noPrivacy client_lr server_lr st cs₁ n
        = runStates .noPrivacy client_lr server_lr st cs₂ n
  | 0, _ => rfl
  | n + 1, st => by
    simp only [runStates]
    rw [runRound_noPrivacy_noise client_lr server_lr st cs₁ cs₂ h]
    exact congrArg _ (noPrivacy_run_deterministic client_lr server_lr cs₁ cs₂ h n _)

/-- A one-microbatch client over a one-dimensional model, drawing the
all-zero noise samples. -/
def clientZeroNoise : Client 1 := ⟨[fun p => p], fun _ _ => 0⟩

/-- The same dataset as clientZeroNoise but with all-one noise samples. -/
def clientOneNoise : Client 1 := ⟨[fun p => p], fun _ _ => 1⟩

theorem noPrivacy_run_deterministic_witness :
    [clientZeroNoise].map Client.dataset = [clientOneNoise].map Client.dataset
    ∧ runStates .noPrivacy 1 1 ⟨fun _ => 0, 0⟩ [clientZeroNoise] 2
      = runStates .noPrivacy 1 1 ⟨fun _ => 0, 0⟩ [clientOneNoise] 2 :=
  ⟨rfl, noPrivacy_run_deterministic 1 1 [clientZeroNoise] [clientOneNoise] rfl 2 _⟩

/- ------------------------------------------------------------------
   Evaluation (source: the two evaluate_model definitions, first phase
   and enhanced phase).  The keras evaluation primitive
   keras_model.evaluate is an external collaborator, abstracted as an
   argument ev from weights and test data to (loss, accuracy).
   ------------------------------------------------------------------ -/

/-- The TFF server state as consumed by evaluation: it carries the
trainable model weights (`state.model.trainable` in the source). -/
structure TffServerState (k : ℕ) where
  model_trainable : Fin k → ℝ

/-- Source lines 251-254 (helper nested in the first-phase
evaluate_model): copies the trainable weights of a freshly built TFF
model into the Keras model, replacing the Keras weights entirely. -/
def assign_weights_phase1 {k : ℕ} (keras_weights tff_model_weights : Fin k → ℝ) :
    Fin k → ℝ :=
  let _ := keras_weights
  tff_model_weights

/-- Source lines 246-269 (first-phase evaluate_model): builds a fresh
Keras model, calls model_fn() to build a fresh TFF model, copies the
weights of that fresh TFF model into the Keras model and evaluates.
The state argument appears in the signature but is never read; the
weights of the fresh model produced by model_fn() are the argument
model_fn_weights. -/
def evaluate_model_phase1 {k : ℕ} {Td : Type}
    (ev : (Fin k → ℝ) → Td → ℝ × ℝ)
    (keras_init_weights model_fn_weights : Fin k → ℝ)
    (state : TffServerState k) (test_dataset : Td) : ℝ × ℝ :=
  let _ := state
  ev (assign_weights_phase1 keras_init_weights model_fn_weights) test_dataset

/-- Source lines 1266-1269 (enhanced phase): copies
`tff_state.model.trainable` into the Keras model. -/
def assign_weights_to_keras_model {k : ℕ} (keras_weights : Fin k → ℝ)
    (tff_state : TffServerState k) : Fin k → ℝ :=
  let _ := keras_weights
  tff_state.model_trainable

/-- Source lines 1278-1292 (enhanced-phase evaluate_model): builds a
fresh Keras model, assigns the weights carried by the passed state and
evaluates those weights on the test dataset. -/
def evaluate_model {k : ℕ} {Td : Type} (ev : (Fin k → ℝ) → Td → ℝ × ℝ)
    (keras_init_weights : Fin k → ℝ) (state : TffServerState k)
    (test_dataset : Td) : ℝ × ℝ :=
  ev (assign_weights_to_keras_model keras_init_weights state) test_dataset

/-- Claim C9 (refuted for the first-phase code): the first-phase
evaluate_model returns the same result for every state — it evaluates
the freshly initialized weights of model_fn(), not the parameters of
the state it is given — while the enhanced-phase evaluate_model does
evaluate exactly the parameters carried by the passed state.  The
concrete instance exhibits two states with different parameters on
which the first-phase evaluator cannot be distinguished although the
enhanced one is. -/
theorem evaluate_model_state_dependence :
    (∀ {k : ℕ} {Td : Type} (ev : (Fin k → ℝ) → Td → ℝ × ℝ)
        (kw fw : Fin k → ℝ) (s₁ s₂ : TffServerState k) (t : Td),
      evaluate_model_phase1 ev kw fw s₁ t = evaluate_model_phase1 ev kw fw s₂ t)
    ∧ (∀ {k : ℕ} {Td : Type} (ev : (Fin k → ℝ) → Td → ℝ × ℝ)
        (kw : Fin k → ℝ) (s : TffServerState k) (t : Td),
      evaluate_model ev kw s t = ev s.model_trainable t)
    ∧ (evaluate_model_phase1 (fun p (_ : Unit) => (p 0, p 0)) (fun _ => (5 : ℝ))
          (fun _ => (9 : ℝ)) (⟨fun _ => 0⟩ : TffServerState 1) ()
        = evaluate_model_phase1 (fun p (_ : Unit) => (p 0, p 0)) (fun _ => (5 : ℝ))
          (fun _ => (9 : ℝ)) (⟨fun _ => 1⟩ : TffServerState 1) ())
    ∧ evaluate_model (fun p (_ : Unit) => (p 0, p 0)) (fun _ => (5 : ℝ))
          (⟨fun _ => 0⟩ : TffServerState 1) ()
        ≠ evaluate_model (fun p (_ : Unit) => (p 0, p 0)) (fun _ => (5 : ℝ))
          (⟨fun _ => 1⟩ : TffServerState 1) () := by
  refine ⟨fun ev kw fw s₁ s₂ t => rfl, fun ev kw s t => rfl, rfl, ?_⟩
  intro hcontra
  have h0 : ((0 : ℝ), (0 : ℝ)) = ((1 : ℝ), (1 : ℝ)) := hcontra
  have := congrArg Prod.fst h0
  norm_num at this

theorem evaluate_model_state_dependence_witness :
    evaluate_model (fun p (_ : Unit) => (p 0, p 0)) (fun _ => (5 : ℝ))
        (⟨fun _ => 0⟩ : TffServerState 1) ()
      = ((0 : ℝ), (0 : ℝ)) :=
  evaluate_model_state_dependence.2.1
    (fun p (_ : Unit) => (p 0, p 0)) (fun _ => (5 : ℝ)) ⟨fun _ => 0⟩ ()
